import Mathlib

/-!
Shallow embedding of the yap proxy core (bloodnighttw/yap): the bounded
log store and flat-file logging (src/components/proxy.rs), the request
handling and URI-to-path mapping of the proxy engine, the signal batching
of the dispatcher (src/framework/runtime.rs), the log viewer state
(src/components/proxy_list.rs), and the filter input widget
(src/components/filter.rs). Rust strings are modelled as lists of
characters; machine-level byte indices into UTF-8 data are tracked with
explicit per-character byte sizes. Fallible operations (Rust panics,
early returns) are modelled with Option.
-/

namespace Yap

/-- A Rust String, modelled as its sequence of unicode characters. -/
abbrev Str := List Char

/-- One logged proxy exchange (struct HttpLog in src/components/proxy.rs).
The timestamp is abstracted to a number; the payload structure is exactly
method, uri, timestamp and path. -/
structure HttpLog where
  method : Str
  uri : Str
  timestamp : Nat
  path : Str
deriving DecidableEq

/-- The log store capacity: the literal 100 in Proxy::log_request. -/
def logCapacity : Nat := 100

/-- The store mutation performed by Proxy::log_request (proxy.rs 62-74):
if the store holds at least 100 entries, pop the front (oldest) entry,
then push the new entry at the back. -/
def appendLog (logs : List HttpLog) (entry : HttpLog) : List HttpLog :=
  if logCapacity ≤ logs.length then logs.drop 1 ++ [entry]
  else logs ++ [entry]

/-- Repeated appends, oldest first, starting from a given store. -/
def appendAll (logs : List HttpLog) (entries : List HttpLog) : List HttpLog :=
  entries.foldl appendLog logs

/-- Lowercasing of a string, character by character (the ASCII core of
Rust str::to_lowercase as used for the case-insensitive filter match). -/
def lowerStr (s : Str) : Str := s.map Char.toLower

/-- Whether the first string occurs at the start of the second. -/
def leadsWith : Str → Str → Bool
  | [], _ => true
  | _ :: _, [] => false
  | a :: as, b :: bs => decide (a = b) && leadsWith as bs

/-- Substring containment, Rust str::contains: the needle occurs at the
start of the haystack or inside its tail. -/
def strContains (hay needle : Str) : Bool :=
  match hay with
  | [] => needle.isEmpty
  | _ :: t => leadsWith needle hay || strContains t needle

/-- The filtering pass of ProxyList::render (proxy_list.rs 154-165): the
empty filter keeps the whole snapshot, otherwise keep the entries whose
lowercased URI contains the lowercased filter text. -/
def filterLogs (filterVal : Str) (logs : List HttpLog) : List HttpLog :=
  if filterVal.isEmpty then logs
  else logs.filter fun l => strContains (lowerStr l.uri) (lowerStr filterVal)

/- ### Dispatcher (src/framework/runtime.rs) -/

/-- The Action enum of src/framework/action.rs. -/
inductive Action where
  | render
  | resize (w h : Nat)
  | suspend
  | resume
  | quit
  | error (msg : Str)
deriving DecidableEq

/-- The coalesced state built by Runtime::batch_actions while draining the
channel: the most recent resize dimensions, and the collapsed render,
suspend and resume flags. -/
structure BatchFlags where
  resizeDims : Option (Nat × Nat)
  needRender : Bool
  suspendFlag : Bool
  resumeFlag : Bool
deriving DecidableEq

/-- The flags derived from the first received action
(runtime.rs 129-136); Quit is tracked separately. -/
def initFlags : Action → BatchFlags
  | .resize w h => ⟨some (w, h), false, false, false⟩
  | .render => ⟨none, true, false, false⟩
  | .suspend => ⟨none, false, true, false⟩
  | .resume => ⟨none, false, false, true⟩
  | _ => ⟨none, false, false, false⟩

/-- One drained action (the match inside the try_recv loop,
runtime.rs 143-161); none models the early return on Quit. -/
def drainStep (f : BatchFlags) : Action → Option BatchFlags
  | .quit => none
  | .suspend => some { f with suspendFlag := true }
  | .resume => some { f with resumeFlag := true }
  | .resize w h => some { f with resizeDims := some (w, h) }
  | .render => some { f with needRender := true }
  | .error _ => some f

/-- Draining every queued action non-blockingly. -/
def drainAll (f : BatchFlags) : List Action → Option BatchFlags
  | [] => some f
  | a :: rest =>
    match drainStep f a with
    | none => none
    | some f2 => drainAll f2 rest

/-- Terminal-side effects issued by a dispatcher iteration; draw is one
call to Runtime::render (a full redraw). -/
inductive Eff where
  | resizeBuf (w h : Nat)
  | draw
  | suspendTui
  | sendResume
  | resumeTui
  | clearTui
deriving DecidableEq

/-- The effect trace of applying a coalesced batch (runtime.rs 168-188):
Runtime::handle_resize resizes the buffer and redraws; suspend releases
the terminal and queues a Resume; resume reacquires, clears and redraws;
finally a collapsed Render flag redraws. -/
def flagEffects (f : BatchFlags) : List Eff :=
  (match f.resizeDims with
   | some (w, h) => [Eff.resizeBuf w h, Eff.draw]
   | none => []) ++
  (if f.suspendFlag then [Eff.suspendTui, Eff.sendResume] else []) ++
  (if f.resumeFlag then [Eff.resumeTui, Eff.clearTui, Eff.draw] else []) ++
  (if f.needRender then [Eff.draw] else [])

/-- Runtime::batch_actions (runtime.rs 128-189): build flags from the
first action, drain the rest (early Quit stops with no effects), then a
first-action Quit stops, otherwise the batch is applied. Returns the
stop flag and the effect trace of the iteration. -/
def batch_actions (first : Action) (pending : List Action) : Bool × List Eff :=
  match drainAll (initFlags first) pending with
  | none => (true, [])
  | some f =>
    if first = Action.quit then (true, [])
    else (false, flagEffects f)

/-- The most recent resize dimensions among a list of actions. -/
def lastResize : List Action → Option (Nat × Nat)
  | [] => none
  | a :: rest =>
    match lastResize rest with
    | some p => some p
    | none => match a with | Action.resize w h => some (w, h) | _ => none

/-- Whether a Render action occurs in a list of actions. -/
def hasRender : List Action → Bool
  | [] => false
  | a :: rest => decide (a = Action.render) || hasRender rest

/- ### Log viewer state (src/components/proxy_list.rs) -/

/-- The mutable view state of ProxyList (fields of struct ProxyList that
the render and key paths mutate). -/
structure ViewState where
  scrollOffset : Nat
  selectedIndex : Nat
  itemsLen : Nat
  showPopup : Bool
  visibleHeight : Nat
deriving DecidableEq

/-- The keys ProxyList::handle_key_event distinguishes. -/
inductive ListKey where
  | down
  | up
  | enter
  | esc
  | other
deriving DecidableEq

/-- ProxyList::handle_key_event (proxy_list.rs 59-130). storeLen is the
length of the non-blocking store snapshot taken on Enter. All integers
are usize with saturating subtraction, i.e. truncated Nat subtraction. -/
def proxy_list_handle_key (s : ViewState) (storeLen : Nat) (k : ListKey) : ViewState :=
  if s.showPopup then
    match k with
    | .esc => { s with showPopup := false }
    | _ => s
  else
    match k with
    | .down =>
      if s.selectedIndex < s.itemsLen - 1 then
        let sel := s.selectedIndex + 1
        let maxVisible := s.scrollOffset + (s.visibleHeight - 1)
        let off := if maxVisible < sel then sel - (s.visibleHeight - 1) else s.scrollOffset
        { s with selectedIndex := sel, scrollOffset := off }
      else s
    | .up =>
      if 0 < s.selectedIndex then
        let sel := s.selectedIndex - 1
        let off := if sel < s.scrollOffset then sel else s.scrollOffset
        { s with selectedIndex := sel, scrollOffset := off }
      else s
    | .enter =>
      if s.selectedIndex < storeLen then { s with showPopup := true } else s
    | _ => s

/-- The selection/scroll update of ProxyList::render after the item list
is rebuilt (proxy_list.rs 211-227): follow the tail if the selection was
on the last row and the list grew, otherwise clamp the selection into the
new bounds. -/
def updateOnItems (s : ViewState) (newLen : Nat) : ViewState :=
  if (0 < s.itemsLen ∧ s.selectedIndex = s.itemsLen - 1) ∧ s.itemsLen < newLen then
    let off := if s.visibleHeight < newLen then newLen - s.visibleHeight else s.scrollOffset
    { s with itemsLen := newLen, selectedIndex := newLen - 1, scrollOffset := off }
  else
    if newLen ≤ s.selectedIndex ∧ 0 < newLen then
      { s with itemsLen := newLen, selectedIndex := newLen - 1 }
    else
      { s with itemsLen := newLen }

/-- The number of list rows built from the filtered snapshot
(proxy_list.rs 168-209): one placeholder row when it is empty. -/
def itemsCount (filtered : List HttpLog) : Nat :=
  if filtered.isEmpty then 1 else filtered.length

/-- The state/content part of ProxyList::render (proxy_list.rs 132-273):
recompute the visible height from the drawing area, take a non-blocking
snapshot of the store (empty when the lock is held), a non-blocking read
of the shared filter (empty when its lock is held), filter, then update
the selection. Returns the new state and the filtered list displayed. -/
def renderFrame (s : ViewState) (areaHeight : Nat) (logsLocked : Bool)
    (store : List HttpLog) (filterLocked : Bool) (filterStr : Str) :
    ViewState × List HttpLog :=
  let s0 := { s with visibleHeight := areaHeight - 2 }
  let snap := if logsLocked then [] else store
  let fval := if filterLocked then [] else filterStr
  let filtered := filterLogs fval snap
  (updateOnItems s0 (itemsCount filtered), filtered)

/-- A view state as built by ProxyList::new. -/
def initViewState : ViewState := ⟨0, 0, 0, false, 10⟩

/-- A sample transaction record. -/
def sampleLog : HttpLog := ⟨['G', 'E', 'T'], ['h'], 0, ['h']⟩

/- ### Proxy engine request handling (src/components/proxy.rs) -/

/-- The outcome of forwarding a request upstream in Proxy::handle_request:
the upstream response (status and whether its buffered body is empty),
a failure of the outbound request itself, or a failure while collecting
the response body. -/
inductive ForwardOutcome where
  | ok (status : Nat) (bodyEmpty : Bool)
  | requestFailed
  | bodyReadFailed
deriving DecidableEq

/-- The observable effects of serving one request: log store appends,
flat proxy_requests.log lines, per-URI artifact writes
(save_request_to_file), update signals sent to the dispatcher, whether a
second TCP connection to the target was opened for tunnelling, and the
status and body-emptiness of the response returned to the client. -/
structure ReqEffects where
  logAppends : Nat
  flatLogWrites : Nat
  artifactWrites : Nat
  updateSignals : Nat
  tunnelOpened : Bool
  responseStatus : Nat
  responseBodyEmpty : Bool
deriving DecidableEq

/-- The method string CONNECT. -/
def connectMethod : Str := ['C', 'O', 'N', 'N', 'E', 'C', 'T']

/-- The method string GET. -/
def getMethod : Str := ['G', 'E', 'T']

/-- Proxy::handle_request (proxy.rs 254-331). It always runs log_request
first (one store append, one flat-log write, one update signal when an
updater is mounted, proxy.rs 53-85). A non-CONNECT request is forwarded:
on success the artifact is saved and the upstream status/body returned;
when the outbound request or the body read fails a 502 with a non-empty
diagnostic body is synthesized and no artifact is written. A CONNECT
request reaching this function returns an empty 200 response. -/
def handle_request (method : Str) (updaterPresent : Bool) (fw : ForwardOutcome) :
    ReqEffects :=
  let upd := if updaterPresent then 1 else 0
  if method ≠ connectMethod then
    match fw with
    | .ok status bodyEmpty => ⟨1, 1, 1, upd, false, status, bodyEmpty⟩
    | .requestFailed => ⟨1, 1, 0, upd, false, 502, false⟩
    | .bodyReadFailed => ⟨1, 1, 0, upd, false, 502, false⟩
  else ⟨1, 1, 0, upd, false, 200, true⟩

/-- The per-request service closure spawned by Proxy::run_server
(proxy.rs 368-384): a CONNECT request is answered directly with an empty
200 placeholder response — no tunnel is opened, nothing is logged and no
signal is sent — while every other request goes to handle_request. -/
def serveRequest (method : Str) (updaterPresent : Bool) (fw : ForwardOutcome) :
    ReqEffects :=
  if method = connectMethod then ⟨0, 0, 0, 0, false, 200, true⟩
  else handle_request method updaterPresent fw

/- ### URI to artifact path (Proxy::uri_to_file_path, proxy.rs 111-154) -/

/-- The characters replaced with an underscore in a path segment. -/
def segBadChars : List Char := [':', '?', '&', '=', '*', '<', '>', '|', '"']

/-- The characters replaced with an underscore in a query string. -/
def queryBadChars : List Char := ['/', ':', '?', '&', '=', '*', '<', '>', '|', '"']

/-- The characters replaced with an underscore in an unparsable raw URI. -/
def rawBadChars : List Char := ['/', ':', '?', '&', '=']

/-- Rust str::replace of a set of characters by an underscore. -/
def sanitizeWith (bad : List Char) (s : Str) : Str :=
  s.map fun c => if c ∈ bad then '_' else c

/-- Splitting a string on the slash character (Rust str::split,
empty pieces kept). -/
def splitSlashAux : Str → Str → List Str
  | [], acc => [acc.reverse]
  | c :: rest, acc =>
    if c = '/' then acc.reverse :: splitSlashAux rest []
    else splitSlashAux rest (c :: acc)

def splitSlash (s : Str) : List Str := splitSlashAux s []

/-- PathBuf::file_name().unwrap_or_default() on a component list. -/
def fileNameOf (p : List Str) : Str := p.getLast?.getD []

/-- PathBuf::set_file_name: replace the last component. -/
def setFileName (p : List Str) (n : Str) : List Str := p.dropLast ++ [n]

/-- The literal ".yap": both the root directory and the appended
extension. -/
def strYap : Str := ['.', 'y', 'a', 'p']

/-- The literal "unknown". -/
def strUnknown : Str := ['u', 'n', 'k', 'n', 'o', 'w', 'n']

/-- The literal "index". -/
def strIndex : Str := ['i', 'n', 'd', 'e', 'x']

/-- The parse of a URI by the url crate, as consumed by
uri_to_file_path: host_str(), path() and query(). -/
structure ParsedUrl where
  hostStr : Option Str
  pathStr : Str
  queryStr : Option Str
deriving DecidableEq

/-- The component list built before the query/extension steps
(proxy.rs 122-140): the ".yap" root, then the host (or "unknown"), then
the sanitized non-empty path segments, or the literal "index" for an
empty path. -/
def basePath (host : Option Str) (path : Str) : List Str :=
  let h := host.getD strUnknown
  let parts := (splitSlash path).filter fun s => ¬ s.isEmpty
  if parts.isEmpty then [strYap, h, strIndex]
  else [strYap, h] ++ parts.map (sanitizeWith segBadChars)

/-- Proxy::uri_to_file_path on a successfully parsed URI
(proxy.rs 122-154): build the base components, append the sanitized
query (with an underscore separator) to the final segment when present,
then append the ".yap" extension to the final segment. -/
def uri_to_file_path (u : ParsedUrl) : List Str :=
  let p1 := basePath u.hostStr u.pathStr
  let p2 := match u.queryStr with
    | some q => setFileName p1 (fileNameOf p1 ++ '_' :: sanitizeWith queryBadChars q)
    | none => p1
  setFileName p2 (fileNameOf p2 ++ strYap)

/-- Proxy::uri_to_file_path on a URI the url crate cannot parse
(proxy.rs 115-119): a flat sanitized filename under the "unknown"
bucket. -/
def uri_to_file_path_fallback (uri : Str) : List Str :=
  [strYap, strUnknown, sanitizeWith rawBadChars uri ++ strYap]

/-- The suffix contributed by the query to the final segment: nothing
when absent, an underscore and the sanitized query when present. -/
def querySuffix : Option Str → Str
  | none => []
  | some q => '_' :: sanitizeWith queryBadChars q

/- ### Filter input widget (src/components/filter.rs) -/

/-- The UTF-8 byte length of a string (Rust String::len). -/
def utf8Len (s : Str) : Nat := (s.map Char.utf8Size).sum

/-- Whether a byte index is a character boundary of the UTF-8
encoding. -/
def isBoundary : Str → Nat → Bool
  | _, 0 => true
  | [], _ + 1 => false
  | c :: t, i + 1 =>
    if i + 1 < Char.utf8Size c then false
    else isBoundary t (i + 1 - Char.utf8Size c)

/-- Insertion of a character at a byte index, splitting at the character
whose encoding starts there; meaningful on boundaries. -/
def insertAt : Str → Nat → Char → Str
  | s, 0, c => c :: s
  | [], _ + 1, c => [c]
  | x :: t, i + 1, c => x :: insertAt t (i + 1 - Char.utf8Size x) c

/-- Removal of the character whose encoding starts at a byte index;
meaningful on boundaries. -/
def removeAt : Str → Nat → Str
  | [], _ => []
  | _ :: t, 0 => t
  | x :: t, i + 1 => x :: removeAt t (i + 1 - Char.utf8Size x)

/-- Rust String::insert(idx, c): panics — modelled as none — unless idx
lies on a character boundary. -/
def stringInsert (s : Str) (i : Nat) (c : Char) : Option Str :=
  if isBoundary s i then some (insertAt s i c) else none

/-- Rust String::remove(idx): panics — modelled as none — unless idx is
a character boundary strictly inside the string. -/
def stringRemove (s : Str) (i : Nat) : Option Str :=
  if isBoundary s i && decide (i < utf8Len s) then some (removeAt s i) else none

/-- The fields of the Filter widget its key handler touches: the filter
text and the cursor position, which the handler advances by one per
character but Rust String::insert/remove consume as a byte index. -/
structure FilterState where
  hostname : Str
  cursorPosition : Nat
deriving DecidableEq

/-- The modifier-free keys Filter::handle_key_event distinguishes. -/
inductive FKey where
  | char (c : Char)
  | backspace
  | left
  | right
  | home
  | endk
deriving DecidableEq

/-- Filter::handle_key_event (filter.rs 116-160). none models a Rust
panic inside String::insert or String::remove. Left/Right/Home/End and
a Backspace at position 0 never panic; Right and End use the byte length
of the text. -/
def filter_handle_key (s : FilterState) (k : FKey) : Option FilterState :=
  match k with
  | .char c =>
    (stringInsert s.hostname s.cursorPosition c).map
      fun h2 => ⟨h2, s.cursorPosition + 1⟩
  | .backspace =>
    if 0 < s.cursorPosition then
      (stringRemove s.hostname (s.cursorPosition - 1)).map
        fun h2 => ⟨h2, s.cursorPosition - 1⟩
    else some s
  | .left =>
    some (if 0 < s.cursorPosition then ⟨s.hostname, s.cursorPosition - 1⟩ else s)
  | .right =>
    some (if s.cursorPosition < utf8Len s.hostname then
            ⟨s.hostname, s.cursorPosition + 1⟩
          else s)
  | .home => some ⟨s.hostname, 0⟩
  | .endk => some ⟨s.hostname, utf8Len s.hostname⟩

/-- A sequence of key events folded through the handler; none models a
panic somewhere along the sequence. -/
def runKeys (s : FilterState) (ks : List FKey) : Option FilterState :=
  ks.foldlM filter_handle_key s

/-- All-ASCII well-formedness of the widget state: every stored
character is a single UTF-8 byte and the cursor lies within the text. -/
def FilterInv (s : FilterState) : Prop :=
  (∀ c ∈ s.hostname, Char.utf8Size c = 1) ∧
  s.cursorPosition ≤ utf8Len s.hostname

/-- Whether a key event carries only a single-byte character. -/
def keyAscii : FKey → Prop
  | FKey.char c => Char.utf8Size c = 1
  | _ => True

end Yap

namespace Yap

/- ### Log store lemmas and claim C4 -/

theorem appendLog_length_le (logs : List HttpLog) (e : HttpLog)
    (h : logs.length ≤ logCapacity) :
    (appendLog logs e).length ≤ logCapacity := by
  have hcap : logCapacity = 100 := rfl
  unfold appendLog
  split
  · rename_i hge
    simp only [List.length_append, List.length_drop, List.length_cons,
      List.length_nil]
    omega
  · rename_i hlt
    simp only [List.length_append, List.length_cons, List.length_nil]
    omega

theorem appendAll_eq_drop (es : List HttpLog) :
    ∀ logs : List HttpLog, logs.length ≤ logCapacity →
      appendAll logs es = (logs ++ es).drop (logs.length + es.length - logCapacity) := by
  induction es with
  | nil =>
    intro logs h
    have hcap : logCapacity = 100 := rfl
    have h0 : logs.length - logCapacity = 0 := by omega
    simp [appendAll, h0]
  | cons e es ih =>
    intro logs h
    have hcap : logCapacity = 100 := rfl
    have hstep : appendAll logs (e :: es) = appendAll (appendLog logs e) es := rfl
    rw [hstep, ih (appendLog logs e) (appendLog_length_le logs e h)]
    by_cases hc : logCapacity ≤ logs.length
    · have hlen : logs.length = logCapacity := le_antisymm h hc
      have hA : appendLog logs e = logs.drop 1 ++ [e] := by
        unfold appendLog
        simp [hc]
      rw [hA]
      have hlenA : (logs.drop 1 ++ [e]).length = logCapacity := by
        simp only [List.length_append, List.length_drop, List.length_cons,
          List.length_nil]
        omega
      rw [hlenA]
      have hL : logCapacity + es.length - logCapacity = es.length := by omega
      have hR : logs.length + (e :: es).length - logCapacity = es.length + 1 := by
        simp only [List.length_cons]
        omega
      rw [hL, hR]
      have hcap1 : 1 ≤ logs.length := by omega
      calc (logs.drop 1 ++ [e] ++ es).drop es.length
          = (logs.drop 1 ++ (e :: es)).drop es.length := by
            rw [List.append_assoc, List.singleton_append]
        _ = ((logs ++ (e :: es)).drop 1).drop es.length := by
            rw [List.drop_append_of_le_length hcap1]
        _ = (logs ++ (e :: es)).drop (es.length + 1) := by
            rw [List.drop_drop, Nat.add_comm 1 es.length]
    · have hA : appendLog logs e = logs ++ [e] := by
        unfold appendLog
        simp [hc]
      rw [hA]
      have hEq : (logs ++ [e]) ++ es = logs ++ (e :: es) := by
        rw [List.append_assoc, List.singleton_append]
      rw [hEq]
      have hN : (logs ++ [e]).length + es.length - logCapacity
          = logs.length + (e :: es).length - logCapacity := by
        simp only [List.length_append, List.length_cons, List.length_nil]
        omega
      rw [hN]

/-- Claim C4: for every sequence of appends to the log store (starting
from the empty store of Proxy::default), the length never exceeds the
capacity 100, and the store always equals the most recently inserted 100
entries, oldest first — i.e. the input sequence with all but its last 100
elements dropped (a no-op while at most 100 appends have happened, and
exactly one oldest entry evicted per append beyond that). -/
theorem log_store_bounded_fifo (es : List HttpLog) :
    (appendAll [] es).length ≤ logCapacity ∧
    appendAll [] es = es.drop (es.length - logCapacity) := by
  have hcap : logCapacity = 100 := rfl
  have h := appendAll_eq_drop es [] (by simp)
  simp only [List.nil_append, List.length_nil, Nat.zero_add] at h
  refine ⟨?_, h⟩
  rw [h]
  simp only [List.length_drop]
  omega

/- ### Substring lemmas and claim C8 -/

theorem leadsWith_iff (needle hay : Str) :
    leadsWith needle hay = true ↔ ∃ t, needle ++ t = hay := by
  induction needle generalizing hay with
  | nil =>
    simp [leadsWith]
  | cons a as ih =>
    cases hay with
    | nil =>
      simp [leadsWith]
    | cons b bs =>
      simp only [leadsWith, Bool.and_eq_true, decide_eq_true_eq, ih bs,
        List.cons_append, List.cons.injEq]
      constructor
      · rintro ⟨hab, t, ht⟩
        exact ⟨t, hab, ht⟩
      · rintro ⟨t, hab, ht⟩
        exact ⟨hab, t, ht⟩

theorem strContains_iff (hay needle : Str) :
    strContains hay needle = true ↔ ∃ pre post, pre ++ needle ++ post = hay := by
  induction hay with
  | nil =>
    simp only [strContains, List.isEmpty_iff]
    constructor
    · intro h
      exact ⟨[], [], by simp [h]⟩
    · rintro ⟨pre, post, h⟩
      rcases List.append_eq_nil.mp h with ⟨h1, h2⟩
      rcases List.append_eq_nil.mp h1 with ⟨_, h3⟩
      exact h3
  | cons b bs ih =>
    simp only [strContains, Bool.or_eq_true, leadsWith_iff, ih]
    constructor
    · rintro (⟨t, ht⟩ | ⟨pre, post, h⟩)
      · exact ⟨[], t, by simpa using ht⟩
      · exact ⟨b :: pre, post, by simp [h]⟩
    · rintro ⟨pre, post, h⟩
      cases pre with
      | nil =>
        left
        exact ⟨post, by simpa using h⟩
      | cons p ps =>
        right
        simp only [List.cons_append, List.cons.injEq] at h
        exact ⟨ps, post, h.2⟩

theorem strContains_nil_needle (hay : Str) : strContains hay [] = true := by
  cases hay with
  | nil => rfl
  | cons b bs => simp [strContains, leadsWith]

/-- Claim C8: the viewer's filtering keeps exactly the transactions whose
URI contains the filter text as a case-insensitive substring (both sides
lowercased, containment as a substring occurrence), and the empty filter
string keeps every transaction. -/
theorem filter_ci_substring (fval : Str) (logs : List HttpLog) :
    filterLogs fval logs
      = logs.filter (fun l => strContains (lowerStr l.uri) (lowerStr fval)) ∧
    filterLogs [] logs = logs ∧
    (∀ l : HttpLog, strContains (lowerStr l.uri) (lowerStr fval) = true ↔
        ∃ pre post, pre ++ lowerStr fval ++ post = lowerStr l.uri) := by
  refine ⟨?_, ?_, fun l => strContains_iff _ _⟩
  · unfold filterLogs
    split
    · rename_i hEmpty
      have hnil : fval = [] := by
        simpa [List.isEmpty_iff] using hEmpty
      subst hnil
      rw [List.filter_eq_self.mpr]
      intro a _
      simpa [lowerStr] using strContains_nil_needle (lowerStr a.uri)
    · rfl
  · rfl

/- ### Dispatcher lemmas and claim C2 -/

theorem drainAll_no_qsr (acts : List Action) :
    ∀ f : BatchFlags,
      Action.quit ∉ acts → Action.suspend ∉ acts → Action.resume ∉ acts →
      drainAll f acts
        = some ⟨(match lastResize acts with
                 | some p => some p
                 | none => f.resizeDims),
                f.needRender || hasRender acts,
                f.suspendFlag, f.resumeFlag⟩ := by
  induction acts with
  | nil =>
    intro f _ _ _
    simp [drainAll, lastResize, hasRender]
  | cons a rest ih =>
    intro f hq hs hr
    have hq2 : Action.quit ∉ rest := fun hm => hq (List.mem_cons_of_mem a hm)
    have hs2 : Action.suspend ∉ rest := fun hm => hs (List.mem_cons_of_mem a hm)
    have hr2 : Action.resume ∉ rest := fun hm => hr (List.mem_cons_of_mem a hm)
    have haq : a ≠ Action.quit := fun hm => hq (hm ▸ List.mem_cons_self a rest)
    have has : a ≠ Action.suspend := fun hm => hs (hm ▸ List.mem_cons_self a rest)
    have har : a ≠ Action.resume := fun hm => hr (hm ▸ List.mem_cons_self a rest)
    cases a with
    | quit => exact absurd rfl haq
    | suspend => exact absurd rfl has
    | resume => exact absurd rfl har
    | render =>
      have hstep : drainAll f (Action.render :: rest)
          = drainAll { f with needRender := true } rest := rfl
      rw [hstep, ih _ hq2 hs2 hr2]
      cases hlr : lastResize rest with
      | none => simp [lastResize, hasRender, hlr]
      | some p => simp [lastResize, hasRender, hlr]
    | resize w h =>
      have hstep : drainAll f (Action.resize w h :: rest)
          = drainAll { f with resizeDims := some (w, h) } rest := rfl
      rw [hstep, ih _ hq2 hs2 hr2]
      cases hlr : lastResize rest with
      | none => simp [lastResize, hasRender, hlr]
      | some p => simp [lastResize, hasRender, hlr]
    | error msg =>
      have hstep : drainAll f (Action.error msg :: rest) = drainAll f rest := rfl
      rw [hstep, ih _ hq2 hs2 hr2]
      cases hlr : lastResize rest with
      | none => simp [lastResize, hasRender, hlr]
      | some p => simp [lastResize, hasRender, hlr]

/-- Claim C2 (amended): draining does coalesce the batch — any number of
Render signals collapses to one flag and only the most recent Resize
dimensions are kept — but a batch is applied with up to one redraw from
the Resize handling plus one from the collapsed Render flag. For a batch
of Renders with no Resize exactly one redraw occurs; when the batch also
holds Resize signals exactly two redraws occur, the drawing buffer having
been resized to the most recent dimensions (batches without Quit, Suspend
or Resume). -/
theorem batch_coalesced_draws (pending : List Action)
    (hq : Action.quit ∉ pending) (hs : Action.suspend ∉ pending)
    (hr : Action.resume ∉ pending) :
    (batch_actions Action.render pending).1 = false ∧
    (batch_actions Action.render pending).2.count Eff.draw
      = (match lastResize pending with | some _ => 2 | none => 1) ∧
    (∀ w h, lastResize pending = some (w, h) →
        Eff.resizeBuf w h ∈ (batch_actions Action.render pending).2) := by
  have hdrain := drainAll_no_qsr pending (initFlags Action.render) hq hs hr
  have hinit : initFlags Action.render = ⟨none, true, false, false⟩ := rfl
  rw [hinit] at hdrain
  unfold batch_actions
  rw [hinit, hdrain]
  cases hlr : lastResize pending with
  | none =>
    simp [flagEffects, hlr]
  | some p =>
    obtain ⟨w, h⟩ := p
    refine ⟨by simp [flagEffects, hlr], ?_, ?_⟩
    · simp [flagEffects, hlr, List.count_cons, List.count_append]
    · intro w2 h2 heq
      cases heq
      simp [flagEffects]

/-- Claim C2 counterexample: with three Render signals and one Resize
signal in one batch (first received action Render, then the drained
queue), the dispatcher issues two redraws — one inside the resize
handling and one for the collapsed Render flag — not exactly one. -/
theorem batch_single_redraw_cx :
    (batch_actions Action.render
        [Action.render, Action.render, Action.resize 120 40]).2.count Eff.draw = 2 ∧
    ¬ ((batch_actions Action.render
        [Action.render, Action.render, Action.resize 120 40]).2.count Eff.draw = 1) := by
  decide

theorem batch_coalesced_draws_witness :
    (batch_actions Action.render
        [Action.render, Action.resize 120 40]).2.count Eff.draw = 2 ∧
    Eff.resizeBuf 120 40 ∈ (batch_actions Action.render
        [Action.render, Action.resize 120 40]).2 := by
  have h := batch_coalesced_draws [Action.render, Action.resize 120 40]
    (by decide) (by decide) (by decide)
  exact ⟨h.2.1.trans (by decide), h.2.2 120 40 (by decide)⟩

/- ### Viewer lemmas and claims C3, C7, C9 -/

theorem filterLogs_nil (fval : Str) : filterLogs fval [] = [] := by
  unfold filterLogs
  split <;> rfl

/-- Claim C3 (amended): the snapshot read in ProxyList::render never
blocks; whenever the store lock is currently held by a writer the frame
renders from the empty snapshot — regardless of the store contents and of
whatever any earlier frame displayed — instead of waiting. -/
theorem snapshot_contended_empty (s : ViewState) (ah : Nat) (store : List HttpLog)
    (fl : Bool) (fs : Str) :
    (renderFrame s ah true store fl fs).2 = [] := by
  unfold renderFrame
  simp [filterLogs_nil]

/-- Claim C3 counterexample: with one entry in the store, an uncontended
frame displays the snapshot holding that entry; on a later frame taken
while the write lock is held the viewer displays the empty list, not the
previous snapshot. -/
theorem snapshot_previous_cx :
    (renderFrame initViewState 10 false [sampleLog] false []).2 = [sampleLog] ∧
    (renderFrame initViewState 10 true [sampleLog] false []).2 = [] ∧
    ([] : List HttpLog) ≠ [sampleLog] := by
  decide

theorem itemsCount_eq_max (l : List HttpLog) : itemsCount l = max l.length 1 := by
  unfold itemsCount
  split
  · rename_i hE
    have : l = [] := by simpa [List.isEmpty_iff] using hE
    simp [this]
  · rename_i hE
    have hne : l ≠ [] := by simpa [List.isEmpty_iff] using hE
    have hpos : 0 < l.length := List.length_pos.mpr hne
    omega

theorem itemsCount_pos (l : List HttpLog) : 0 < itemsCount l := by
  rw [itemsCount_eq_max]
  omega

theorem updateOnItems_itemsLen (s : ViewState) (n : Nat) :
    (updateOnItems s n).itemsLen = n := by
  unfold updateOnItems
  split
  · rfl
  · split <;> rfl

theorem updateOnItems_selected_lt (s : ViewState) (n : Nat) (hn : 0 < n) :
    (updateOnItems s n).selectedIndex < n := by
  unfold updateOnItems
  split
  · simp only []
    omega
  · rename_i hnb
    split
    · simp only []
      omega
    · rename_i hnc
      simp only []
      omega

theorem key_keeps_selected_lt (s : ViewState) (m : Nat) (k : ListKey)
    (h : s.selectedIndex < s.itemsLen) :
    (proxy_list_handle_key s m k).selectedIndex < s.itemsLen := by
  unfold proxy_list_handle_key
  split
  · cases k <;> simp [h]
  · cases k with
    | down =>
      simp only []
      split
      · rename_i hlt
        simp only []
        omega
      · exact h
    | up =>
      simp only []
      split
      · simp only []
        omega
      · exact h
    | enter =>
      simp only []
      split <;> simp [h]
    | esc => exact h
    | other => exact h

/-- Claim C7 (amended): after every render the selected index lies in
[0, max(filteredCount, 1)): whenever the filtered list is nonempty this
is exactly [0, filteredCount), and when it is empty the index rests at 0
on the single placeholder row (so the literal invariant
selected ∈ [0, filteredCount) is unsatisfiable and does not hold there).
A selection movement handled after the frame stays within the same
bounds. -/
theorem selected_index_bounds (s : ViewState) (ah : Nat) (ll : Bool)
    (store : List HttpLog) (fl : Bool) (fs : Str) (storeLen : Nat) (k : ListKey) :
    (renderFrame s ah ll store fl fs).1.selectedIndex
      < max (renderFrame s ah ll store fl fs).2.length 1 ∧
    (proxy_list_handle_key (renderFrame s ah ll store fl fs).1 storeLen k).selectedIndex
      < max (renderFrame s ah ll store fl fs).2.length 1 := by
  have hfst : (renderFrame s ah ll store fl fs).1
      = updateOnItems { s with visibleHeight := ah - 2 }
          (itemsCount (renderFrame s ah ll store fl fs).2) := rfl
  have hpos := itemsCount_pos (renderFrame s ah ll store fl fs).2
  have hmax := itemsCount_eq_max (renderFrame s ah ll store fl fs).2
  constructor
  · rw [hfst, ← hmax]
    exact updateOnItems_selected_lt _ _ hpos
  · rw [hfst, ← hmax]
    have hlen := updateOnItems_itemsLen
      { s with visibleHeight := ah - 2 }
      (itemsCount (renderFrame s ah ll store fl fs).2)
    have hsel := updateOnItems_selected_lt
      { s with visibleHeight := ah - 2 }
      (itemsCount (renderFrame s ah ll store fl fs).2) hpos
    have := key_keeps_selected_lt
      (updateOnItems { s with visibleHeight := ah - 2 }
        (itemsCount (renderFrame s ah ll store fl fs).2))
      storeLen k (by rw [hlen]; exact hsel)
    rw [hlen] at this
    exact this

/-- Claim C7 counterexample: on a frame over the empty store with the
empty filter the filtered count is 0, and the selected index (0, resting
on the placeholder row) cannot lie in the empty interval [0, 0). -/
theorem selected_index_empty_cx :
    ((renderFrame initViewState 10 false [] false []).2).length = 0 ∧
    ¬ ((renderFrame initViewState 10 false [] false []).1.selectedIndex
        < ((renderFrame initViewState 10 false [] false []).2).length) := by
  decide

/-- Claim C9: auto-follow-tail. When the displayed item list grows, a
selection that sat on the previous last row moves to the new last row;
otherwise the absolute selected index is kept, clamped to the new last
row only if it would now be out of range. -/
theorem auto_follow_tail (s : ViewState) (newLen : Nat) (hgrow : s.itemsLen < newLen) :
    ((0 < s.itemsLen ∧ s.selectedIndex = s.itemsLen - 1) →
        (updateOnItems s newLen).selectedIndex = newLen - 1) ∧
    (¬ (0 < s.itemsLen ∧ s.selectedIndex = s.itemsLen - 1) →
        (updateOnItems s newLen).selectedIndex
          = if newLen ≤ s.selectedIndex then newLen - 1 else s.selectedIndex) := by
  constructor
  · intro hb
    unfold updateOnItems
    rw [if_pos ⟨hb, hgrow⟩]
  · intro hnb
    unfold updateOnItems
    rw [if_neg (fun hc => hnb hc.1)]
    have hnpos : 0 < newLen := by omega
    by_cases hge : newLen ≤ s.selectedIndex
    · rw [if_pos ⟨hge, hnpos⟩, if_pos hge]
    · rw [if_neg (fun hc => hge hc.1), if_neg hge]

theorem auto_follow_tail_witness :
    (5 : Nat) < 6 ∧
    (updateOnItems ⟨0, 4, 5, false, 10⟩ 6).selectedIndex = 6 - 1 := by
  refine ⟨by decide, ?_⟩
  have h := auto_follow_tail ⟨0, 4, 5, false, 10⟩ 6 (by decide)
  exact h.1 (by decide)

/- ### Proxy engine claims C1 and C5 -/

/-- Claim C1 counterexample: an accepted CONNECT request is answered by
the service closure directly with an empty 200 placeholder; no second
TCP connection is opened for a tunnel and no CONNECT transaction is
appended to the log store — not the claimed one appended transaction. -/
theorem connect_tunnel_cx :
    (serveRequest connectMethod true (ForwardOutcome.ok 200 true)).logAppends = 0 ∧
    (serveRequest connectMethod true (ForwardOutcome.ok 200 true)).tunnelOpened = false ∧
    ¬ ((serveRequest connectMethod true (ForwardOutcome.ok 200 true)).logAppends = 1) := by
  decide

/-- Claim C1 (amended): every accepted CONNECT request is answered with
an empty 200 placeholder response; no tunnel connection is opened, no
bytes are relayed, no transaction is logged and no update signal is
sent (the CONNECT branch of the service closure bypasses
handle_request). -/
theorem connect_placeholder_no_log (updaterPresent : Bool) (fw : ForwardOutcome) :
    serveRequest connectMethod updaterPresent fw
      = ⟨0, 0, 0, 0, false, 200, true⟩ := by
  unfold serveRequest
  simp

/-- Claim C5 counterexample: a successfully parsed GET whose upstream
forwarding fails is answered with a synthesized 502, and no artifact
write is performed — the claimed best-effort Persistence Engine write of
the artifact does not happen on this path. -/
theorem forward_failure_artifact_cx :
    (serveRequest getMethod true ForwardOutcome.requestFailed).artifactWrites = 0 ∧
    (serveRequest getMethod true ForwardOutcome.requestFailed).responseStatus = 502 ∧
    ¬ ((serveRequest getMethod true ForwardOutcome.requestFailed).artifactWrites = 1) := by
  decide

/-- Claim C5 (amended): every successfully parsed non-CONNECT request —
whether forwarding succeeds or fails with a synthesized 502 — performs
exactly one log store append, one flat-log write and one update signal
(with the updater mounted); the per-URI artifact write happens exactly
when forwarding and the body read succeed, and both failure paths
return 502. (A parsed CONNECT request is diverted before any of these
effects; see the C1 theorems.) -/
theorem parsed_request_effects (method : Str) (fw : ForwardOutcome)
    (hm : method ≠ connectMethod) :
    (handle_request method true fw).logAppends = 1 ∧
    (handle_request method true fw).flatLogWrites = 1 ∧
    (handle_request method true fw).updateSignals = 1 ∧
    (handle_request method true fw).artifactWrites
      = (match fw with | ForwardOutcome.ok _ _ => 1 | _ => 0) ∧
    ((fw = ForwardOutcome.requestFailed ∨ fw = ForwardOutcome.bodyReadFailed) →
        (handle_request method true fw).responseStatus = 502) := by
  unfold handle_request
  rw [if_pos hm]
  cases fw <;> simp

theorem parsed_request_effects_witness :
    (handle_request getMethod true (ForwardOutcome.ok 200 false)).logAppends = 1 ∧
    (handle_request getMethod true (ForwardOutcome.ok 200 false)).artifactWrites = 1 := by
  have h := parsed_request_effects getMethod (ForwardOutcome.ok 200 false) (by decide)
  exact ⟨h.1, h.2.2.2.1⟩

/- ### URI to path lemmas and claim C6 -/

theorem setFileName_dropLast (p : List Str) (n : Str) :
    (setFileName p n).dropLast = p.dropLast := by
  simp [setFileName]

theorem fileNameOf_setFileName (p : List Str) (n : Str) :
    fileNameOf (setFileName p n) = n := by
  simp [fileNameOf, setFileName]

theorem setFileName_setFileName (p : List Str) (n m : Str) :
    setFileName (setFileName p n) m = setFileName p m := by
  simp [setFileName]

theorem uri_to_file_path_decomp (h : Option Str) (p : Str) (q : Option Str) :
    uri_to_file_path ⟨h, p, q⟩
      = setFileName (basePath h p)
          (fileNameOf (basePath h p) ++ querySuffix q ++ strYap) := by
  cases q with
  | none => simp [uri_to_file_path, querySuffix]
  | some q =>
    show setFileName
        (setFileName (basePath h p)
          (fileNameOf (basePath h p) ++ '_' :: sanitizeWith queryBadChars q))
        (fileNameOf
          (setFileName (basePath h p)
            (fileNameOf (basePath h p) ++ '_' :: sanitizeWith queryBadChars q)) ++ strYap)
      = _
    rw [fileNameOf_setFileName, setFileName_setFileName]
    rfl

/-- Claim C6 (amended): the URI-to-path mapping is a pure function of
the parsed URI, and two URIs sharing host and path always map into the
same host directory and path prefix; their final filenames are distinct
exactly when the sanitized query suffixes differ — the sanitization that
replaces the characters /:?&=*<>|" by an underscore is not injective, so
distinct query strings can still collide into one filename. -/
theorem uri_query_filenames (h : Option Str) (p : Str) (q1 q2 : Option Str)
    (hne : querySuffix q1 ≠ querySuffix q2) :
    (uri_to_file_path ⟨h, p, q1⟩).dropLast = (uri_to_file_path ⟨h, p, q2⟩).dropLast ∧
    fileNameOf (uri_to_file_path ⟨h, p, q1⟩)
      ≠ fileNameOf (uri_to_file_path ⟨h, p, q2⟩) := by
  rw [uri_to_file_path_decomp, uri_to_file_path_decomp]
  constructor
  · rw [setFileName_dropLast, setFileName_dropLast]
  · rw [fileNameOf_setFileName, fileNameOf_setFileName]
    intro hcontra
    apply hne
    rw [List.append_assoc, List.append_assoc] at hcontra
    have h2 : querySuffix q1 ++ strYap = querySuffix q2 ++ strYap :=
      List.append_cancel_left hcontra
    exact List.append_cancel_right h2

theorem uri_query_filenames_witness :
    querySuffix (some ['a']) ≠ querySuffix none ∧
    ((uri_to_file_path ⟨some ['h'], ['/', 'p'], some ['a']⟩).dropLast
        = (uri_to_file_path ⟨some ['h'], ['/', 'p'], none⟩).dropLast ∧
      fileNameOf (uri_to_file_path ⟨some ['h'], ['/', 'p'], some ['a']⟩)
        ≠ fileNameOf (uri_to_file_path ⟨some ['h'], ['/', 'p'], none⟩)) :=
  ⟨by decide, uri_query_filenames (some ['h']) ['/', 'p'] (some ['a']) none (by decide)⟩

/-- Claim C6 counterexample: the URIs http://h/p?a=1 and http://h/p?a&1
differ only in their query strings, but both queries sanitize to a_1, so
the two URIs map to the very same artifact path — the final filenames
are not distinct. -/
theorem uri_query_collision_cx :
    (some ['a', '=', '1'] : Option Str) ≠ some ['a', '&', '1'] ∧
    uri_to_file_path ⟨some ['h'], ['/', 'p'], some ['a', '=', '1']⟩
      = uri_to_file_path ⟨some ['h'], ['/', 'p'], some ['a', '&', '1']⟩ := by
  decide

/- ### Filter input lemmas and claim C10 -/

theorem utf8Len_ascii (s : Str) :
    (∀ c ∈ s, Char.utf8Size c = 1) → utf8Len s = s.length := by
  induction s with
  | nil => intro _; rfl
  | cons c t ih =>
    intro h
    have hc : Char.utf8Size c = 1 := h c (List.mem_cons_self c t)
    have ht : ∀ d ∈ t, Char.utf8Size d = 1 :=
      fun d hd => h d (List.mem_cons_of_mem c hd)
    have ht2 : (t.map Char.utf8Size).sum = t.length := by
      simpa [utf8Len] using ih ht
    simp [utf8Len, hc]
    omega

theorem isBoundary_ascii (s : Str) :
    (∀ c ∈ s, Char.utf8Size c = 1) → ∀ i, i ≤ s.length →
      isBoundary s i = true := by
  induction s with
  | nil =>
    intro _ i hi
    have h0 : i = 0 := by simpa using hi
    subst h0
    rfl
  | cons c t ih =>
    intro h i hi
    cases i with
    | zero => rfl
    | succ j =>
      have hc : Char.utf8Size c = 1 := h c (List.mem_cons_self c t)
      have hj : j ≤ t.length := by
        simp [List.length_cons] at hi
        omega
      simp [isBoundary, hc]
      exact ih (fun d hd => h d (List.mem_cons_of_mem c hd)) j hj

theorem insertAt_mem (s : Str) :
    ∀ (i : Nat) (c : Char), ∀ d ∈ insertAt s i c, d = c ∨ d ∈ s := by
  induction s with
  | nil =>
    intro i c d hd
    cases i with
    | zero => simp [insertAt] at hd; simp [hd]
    | succ j => simp [insertAt] at hd; simp [hd]
  | cons x t ih =>
    intro i c d hd
    cases i with
    | zero =>
      simp [insertAt] at hd
      simp [List.mem_cons]
      tauto
    | succ j =>
      simp [insertAt, List.mem_cons] at hd
      rcases hd with hx | hrest
      · simp [hx, List.mem_cons]
      · rcases ih (j + 1 - Char.utf8Size x) c d hrest with h1 | h2
        · simp [h1]
        · simp [List.mem_cons, h2]

theorem insertAt_length (s : Str) :
    ∀ (i : Nat) (c : Char), (insertAt s i c).length = s.length + 1 := by
  induction s with
  | nil =>
    intro i c
    cases i <;> rfl
  | cons x t ih =>
    intro i c
    cases i with
    | zero => rfl
    | succ j => simp [insertAt, ih]

theorem removeAt_mem (s : Str) :
    ∀ (i : Nat), ∀ d ∈ removeAt s i, d ∈ s := by
  induction s with
  | nil => intro i d hd; simp [removeAt] at hd
  | cons x t ih =>
    intro i d hd
    cases i with
    | zero =>
      simp [removeAt] at hd
      simp [List.mem_cons, hd]
    | succ j =>
      simp [removeAt, List.mem_cons] at hd
      rcases hd with hx | hrest
      · simp [hx, List.mem_cons]
      · simp [List.mem_cons, ih _ d hrest]

theorem removeAt_length (s : Str) :
    ∀ (i : Nat), i < s.length → (removeAt s i).length = s.length - 1 := by
  induction s with
  | nil => intro i hi; simp at hi
  | cons x t ih =>
    intro i hi
    cases i with
    | zero => simp [removeAt]
    | succ j =>
      have hj : j < t.length := by simpa [List.length_cons] using hi
      have harg : j + 1 - Char.utf8Size x < t.length := by
        have hpos := Char.utf8Size_pos x
        omega
      have := ih (j + 1 - Char.utf8Size x) harg
      simp [removeAt, this]
      omega

/-- Claim C10 (amended): the key handler of the Filter widget is total
on single-byte (ASCII) input: starting from a state whose text is
all-ASCII with the cursor inside the text, any character key carrying a
single-byte character, and Backspace, Left, Right, Home and End, always
succeed (no panic) and leave the cursor at a valid position within the
text. On multi-byte characters the handler is not total (see the
counterexample): the cursor advances one per character while
String::insert and String::remove consume it as a byte index. -/
theorem filter_key_total_ascii (s : FilterState) (k : FKey)
    (hs : FilterInv s) (hk : keyAscii k) :
    ∃ t, filter_handle_key s k = some t ∧ FilterInv t := by
  obtain ⟨hA, hcur⟩ := hs
  have hlen : utf8Len s.hostname = s.hostname.length := utf8Len_ascii _ hA
  cases k with
  | char c =>
    have hc : Char.utf8Size c = 1 := hk
    have hb : isBoundary s.hostname s.cursorPosition = true :=
      isBoundary_ascii _ hA _ (by omega)
    have hNewA : ∀ d ∈ insertAt s.hostname s.cursorPosition c,
        Char.utf8Size d = 1 := by
      intro d hd
      rcases insertAt_mem _ _ _ d hd with h1 | h2
      · rw [h1]; exact hc
      · exact hA d h2
    refine ⟨⟨insertAt s.hostname s.cursorPosition c, s.cursorPosition + 1⟩, ?_, ?_, ?_⟩
    · simp [filter_handle_key, stringInsert, hb]
    · exact hNewA
    · show s.cursorPosition + 1 ≤ utf8Len (insertAt s.hostname s.cursorPosition c)
      rw [utf8Len_ascii _ hNewA, insertAt_length]
      omega
  | backspace =>
    by_cases hpos : 0 < s.cursorPosition
    · have hb : isBoundary s.hostname (s.cursorPosition - 1) = true :=
        isBoundary_ascii _ hA _ (by omega)
      have hlt : s.cursorPosition - 1 < utf8Len s.hostname := by omega
      have hNewA : ∀ d ∈ removeAt s.hostname (s.cursorPosition - 1),
          Char.utf8Size d = 1 :=
        fun d hd => hA d (removeAt_mem _ _ d hd)
      refine ⟨⟨removeAt s.hostname (s.cursorPosition - 1), s.cursorPosition - 1⟩,
        ?_, ?_, ?_⟩
      · simp [filter_handle_key, hpos, stringRemove, hb, hlt]
      · exact hNewA
      · show s.cursorPosition - 1 ≤ utf8Len (removeAt s.hostname (s.cursorPosition - 1))
        rw [utf8Len_ascii _ hNewA, removeAt_length _ _ (by omega)]
        omega
    · exact ⟨s, by simp [filter_handle_key, hpos], hA, hcur⟩
  | left =>
    by_cases hpos : 0 < s.cursorPosition
    · exact ⟨⟨s.hostname, s.cursorPosition - 1⟩,
        by simp [filter_handle_key, hpos], hA,
        show s.cursorPosition - 1 ≤ utf8Len s.hostname by omega⟩
    · exact ⟨s, by simp [filter_handle_key, hpos], hA, hcur⟩
  | right =>
    by_cases hlt : s.cursorPosition < utf8Len s.hostname
    · exact ⟨⟨s.hostname, s.cursorPosition + 1⟩,
        by simp [filter_handle_key, hlt], hA,
        show s.cursorPosition + 1 ≤ utf8Len s.hostname by omega⟩
    · exact ⟨s, by simp [filter_handle_key, hlt], hA, hcur⟩
  | home =>
    exact ⟨⟨s.hostname, 0⟩, by simp [filter_handle_key], hA,
      show 0 ≤ utf8Len s.hostname from Nat.zero_le _⟩
  | endk =>
    exact ⟨⟨s.hostname, utf8Len s.hostname⟩, by simp [filter_handle_key], hA,
      Nat.le_refl _⟩

theorem filter_key_total_ascii_witness :
    ∃ t, filter_handle_key ⟨['a'], 1⟩ (FKey.char 'b') = some t ∧ FilterInv t :=
  filter_key_total_ascii ⟨['a'], 1⟩ (FKey.char 'b')
    ⟨by decide, by show (1 : Nat) ≤ utf8Len ['a']; decide⟩
    (by show Char.utf8Size 'b' = 1; decide)

/-- Claim C10 counterexample: delivering the two-byte character é and
then x panics the handler: after é the cursor position is 1, a byte
index strictly inside the two-byte encoding of é, and the next
String::insert asserts a character boundary. -/
theorem filter_key_panic_cx :
    runKeys ⟨[], 0⟩ [FKey.char 'é', FKey.char 'x'] = none := by
  decide

end Yap
